import Mathlib

/-!
Verification of the candidate-deduplication core of the ma-election-db
repository.  The Python sources src/find_name_variations.py and
src/find_dup_candidates.py are shallowly embedded below: pandas data
frames become lists of rows (with their integer index labels where the
code uses them), the SQLite queries become list comprehensions, and the
string functions are modelled over ASCII character classes (Python's
regex classes \w and \s restricted to ASCII; all data in the claims is
ASCII).  Missing values (NaN / SQL NULL) are modelled with Option.
-/

namespace MaElectionDb

/-- Python regex class \s (ASCII range): space, tab, newline, carriage
return, vertical tab, form feed. -/
def pyIsSpace (c : Char) : Bool :=
  c = ' ' || c = '\t' || c = '\n' || c = '\r' || c = '\x0b' || c = '\x0c'

/-- Python regex class \w (ASCII range): alphanumeric or underscore. -/
def pyIsWord (c : Char) : Bool :=
  c.isAlphanum || c = '_'

/-- Characters kept by the first substitution in normalize_name, which
removes everything that is neither a word character nor whitespace. -/
def keepChar (c : Char) : Bool :=
  pyIsWord c || pyIsSpace c

/-- One pass of the second substitution in normalize_name: every maximal
run of whitespace is replaced by a single space.  The Boolean flag
records whether the previous character belonged to a whitespace run. -/
def collapseWs : Bool → List Char → List Char
  | _, [] => []
  | inRun, c :: cs =>
    if pyIsSpace c then
      if inRun then collapseWs true cs else ' ' :: collapseWs true cs
    else c :: collapseWs false cs

/-- Remove trailing whitespace: a whitespace character survives only
when some non-whitespace character follows it. -/
def dropTrail : List Char → List Char
  | [] => []
  | c :: cs => if pyIsSpace c && (dropTrail cs).isEmpty then [] else c :: dropTrail cs

/-- Python str.strip: drop leading, then trailing, whitespace. -/
def stripEnds (l : List Char) : List Char :=
  dropTrail (l.dropWhile pyIsSpace)

/-- The character-level body of normalize_name: remove punctuation,
collapse whitespace runs, strip the ends, lowercase. -/
def normalizeChars (l : List Char) : List Char :=
  (stripEnds (collapseWs false (l.filter keepChar))).map Char.toLower

/-- normalize_name on a present (non-NaN) string. -/
def normStr (s : String) : String :=
  ⟨normalizeChars s.data⟩

/-- normalize_name from src/find_name_variations.py: NaN input yields
the empty string, otherwise punctuation is removed, whitespace runs are
collapsed, the result is stripped and lowercased. -/
def normalize_name : Option String → String
  | none => ""
  | some s => normStr s

/-- Python str.split with no separator: split on whitespace runs,
dropping empty pieces.  The accumulator holds the current word in
reverse. -/
def splitAux : List Char → List Char → List (List Char)
  | acc, [] => if acc.isEmpty then [] else [acc.reverse]
  | acc, c :: cs =>
    if pyIsSpace c then
      if acc.isEmpty then splitAux [] cs else acc.reverse :: splitAux [] cs
    else splitAux (c :: acc) cs

/-- Python s.split() as a list of words. -/
def pySplit (s : String) : List String :=
  (splitAux [] s.data).map fun w => ⟨w⟩

/-- extract_initials from src/find_name_variations.py: the set of
uppercased first characters of the whitespace-separated words; NaN
yields the empty set.  Python sets are modelled as lists compared by
membership. -/
def extract_initials : Option String → List Char
  | none => []
  | some s => (pySplit s).map fun w => (w.data.headD ' ').toUpper

/-- Python set.issubset for sets modelled as lists. -/
def subsetB (l₁ l₂ : List String) : Bool :=
  l₁.all fun w => l₂.contains w

/-- Python set equality (extensional) for sets modelled as lists. -/
def setEqB (l₁ l₂ : List Char) : Bool :=
  (l₁.all fun c => l₂.contains c) && (l₂.all fun c => l₁.contains c)

/-- The uppercased initials of the interior words of a name (Python
parts[1:-1] with p[0].upper() over nonempty p). -/
def midInitials (parts : List String) : List Char :=
  ((parts.drop 1).dropLast).map fun p => (p.data.headD ' ').toUpper

/-- names_match_with_abbreviation from src/find_name_variations.py.
NaN on either side is no match; otherwise the rules fire in order:
identical normalized strings; normalized token set of one name contained
in the other; identical normalized first and last raw tokens combined
with either differing token counts or identical interior initial sets.
The two extract_initials calls in the source bind variables that are
never used and are omitted here. -/
def names_match_with_abbreviation : Option String → Option String → Bool
  | some n1, some n2 =>
    let norm1 := normStr n1
    let norm2 := normStr n2
    if norm1 = norm2 then true
    else
      let words1 := pySplit norm1
      let words2 := pySplit norm2
      if subsetB words1 words2 || subsetB words2 words1 then true
      else
        let parts1 := pySplit n1
        let parts2 := pySplit n2
        if 2 ≤ parts1.length ∧ 2 ≤ parts2.length then
          if normStr (parts1.getD 0 "") = normStr (parts2.getD 0 "") then
            if normStr (parts1.getLastD "") = normStr (parts2.getLastD "") then
              if parts1.length ≠ parts2.length then true
              else setEqB (midInitials parts1) (midInitials parts2)
            else false
          else false
        else false
  | _, _ => false

/-! ### src/find_dup_candidates.py -/

/-- One row of the candidate-participation CSV, with the columns the
script touches. -/
structure Cand where
  candidate_id : Nat
  election_id : Nat
  name : String
  office : String
  district : String
  city_town : String
deriving DecidableEq

/-- The dictionary built by combined_row_info, together with the ratio
column that potential_duplicates adds to it immediately afterwards. -/
structure DupRow where
  id_1 : Nat
  id_2 : Nat
  name_1 : String
  name_2 : String
  office_1 : String
  district_1 : String
  city_town_1 : String
  office_2 : String
  district_2 : String
  city_town_2 : String
  ratio : Nat
deriving DecidableEq

/-- combined_row_info from src/find_dup_candidates.py (the ratio field
is filled in by the caller, as the source does on the next line). -/
def combined_row_info (row_1 row_2 : Cand) (r : Nat) : DupRow :=
  { id_1 := row_1.candidate_id, id_2 := row_2.candidate_id,
    name_1 := row_1.name, name_2 := row_2.name,
    office_1 := row_1.office, district_1 := row_1.district, city_town_1 := row_1.city_town,
    office_2 := row_2.office, district_2 := row_2.district, city_town_2 := row_2.city_town,
    ratio := r }

/-- potential_duplicates from src/find_dup_candidates.py.  A data frame
is a list of rows paired with their integer index labels; iterrows
yields the label i of each row while iloc slices by position, so the
inner loop runs over the rows at positions i+1 onward of the frame.
The similarity scorer (fuzz.ratio from the fuzzywuzzy library, an
external dependency) is a parameter. -/
def potential_duplicates (ratio : String → String → Nat) (df : List (Nat × Cand)) : List DupRow :=
  df.flatMap fun p =>
    (df.drop (p.1 + 1)).filterMap fun q =>
      if p.2.candidate_id = q.2.candidate_id then none
      else if 90 < ratio p.2.name q.2.name then
        some (combined_row_info p.2 q.2 (ratio p.2.name q.2.name))
      else none

/-- Lexicographic order on number pairs. -/
def pairLexLe (a b : Nat × Nat) : Prop :=
  a.1 < b.1 ∨ (a.1 = b.1 ∧ a.2 ≤ b.2)

instance (a b : Nat × Nat) : Decidable (pairLexLe a b) := by
  unfold pairLexLe; infer_instance

/-- Sort key relation for the descending multi-key sort of main: a
precedes b when the (candidate_id, election_id) key of b is
lexicographically at most that of a.  Ties relate both ways, so
insertion sort keeps their original order, as the stable pandas
multi-key sort does. -/
def candGE (a b : Nat × Cand) : Prop :=
  pairLexLe (b.2.candidate_id, b.2.election_id) (a.2.candidate_id, a.2.election_id)

instance : DecidableRel candGE := fun a b => by
  unfold candGE; infer_instance

/-- Worker for drop_duplicates: keep a row when its key has not been
seen yet. -/
def dedupSeen {κ α : Type} [DecidableEq κ] (key : α → κ) : List κ → List α → List α
  | _, [] => []
  | seen, x :: xs =>
    if key x ∈ seen then dedupSeen key seen xs
    else x :: dedupSeen key (key x :: seen) xs

/-- pandas drop_duplicates keeping the first row for each key. -/
def drop_duplicates {κ α : Type} [DecidableEq κ] (key : α → κ) (l : List α) : List α :=
  dedupSeen key [] l

/-- The candidate universe built by main: attach the 0-based index
labels of the CSV, sort by (candidate_id, election_id) descending, keep
the first (latest) row per candidate_id.  The index labels survive the
sort, exactly as a pandas index does. -/
def cands_universe (cand_elecs : List Cand) : List (Nat × Cand) :=
  drop_duplicates (fun p => p.2.candidate_id) (cand_elecs.enum.insertionSort candGE)

/-- A row of the frame handed to transform_for_report: the combined
pair columns plus the human-curated pref_id. -/
structure PrefRow where
  id_1 : Nat
  id_2 : Nat
  name_1 : String
  name_2 : String
  office_1 : String
  district_1 : String
  city_town_1 : String
  office_2 : String
  district_2 : String
  city_town_2 : String
  pref_id : Nat
deriving DecidableEq

/-- A row of the reported-duplicates output. -/
structure ReportRow where
  id_pref : Nat
  name_pref : String
  office_pref : String
  district_pref : String
  city_town_pref : String
  id_dup : Nat
  name_dup : String
  office_dup : String
  district_dup : String
  city_town_dup : String
deriving DecidableEq

/-- The per-row body of transform_for_report: the preferred side is
side 1 exactly when pref_id equals id_1, otherwise side 2, with no
validation that pref_id is one of the two ids. -/
def transform_row (row : PrefRow) : ReportRow :=
  if row.pref_id = row.id_1 then
    { id_pref := row.id_1, name_pref := row.name_1, office_pref := row.office_1,
      district_pref := row.district_1, city_town_pref := row.city_town_1,
      id_dup := row.id_2, name_dup := row.name_2, office_dup := row.office_2,
      district_dup := row.district_2, city_town_dup := row.city_town_2 }
  else
    { id_pref := row.id_2, name_pref := row.name_2, office_pref := row.office_2,
      district_pref := row.district_2, city_town_pref := row.city_town_2,
      id_dup := row.id_1, name_dup := row.name_1, office_dup := row.office_1,
      district_dup := row.district_1, city_town_dup := row.city_town_1 }

/-- transform_for_report from src/find_dup_candidates.py: one output
row per input row, in order. -/
def transform_for_report (df : List PrefRow) : List ReportRow :=
  df.map transform_row

/-! ### src/find_name_variations.py, relational detectors -/

/-- Lexicographic strict order on character lists (SQLite compares text
by byte order, which on the ISO-format dates used here coincides with
codepoint order). -/
def charListLt : List Char → List Char → Bool
  | [], [] => false
  | [], _ :: _ => true
  | _ :: _, [] => false
  | a :: as, b :: bs => if a = b then charListLt as bs else decide (a < b)

/-- SQLite text comparison, strict. -/
def strLt (a b : String) : Bool :=
  charListLt a.data b.data

/-- SQLite text comparison, non-strict. -/
def strLe (a b : String) : Bool :=
  !strLt b a

/-- A row of the general_election table. -/
structure GeneralElection where
  election_id : Nat
  district_id : String
  office : String
  office_id : Nat
  election_date : String
deriving DecidableEq

/-- A row of the election_candidate table.  Text columns that the
queries compare against NULL are Option-valued. -/
structure ElectionCandidate where
  election_id : Nat
  candidate_id : Nat
  name : Option String
  first_name : Option String
  last_name : Option String
  city_town : Option String
  office : String
  district : String
  district_id : String
  office_id : Nat
  is_winner : Nat
  is_incumbent : Nat
deriving DecidableEq

/-- The SQLite store the detectors query. -/
structure DB where
  general_election : List GeneralElection
  election_candidate : List ElectionCandidate

/-- SQL equality on nullable text: true only when both sides are
non-NULL and equal. -/
def sqlEq (a b : Option String) : Bool :=
  match a, b with
  | some x, some y => x = y
  | _, _ => false

/-- SQL inequality on nullable text: true only when both sides are
non-NULL and different. -/
def sqlNe (a b : Option String) : Bool :=
  match a, b with
  | some x, some y => x ≠ y
  | _, _ => false

/-- The city_town condition used by both relational detectors:
equal, or NULL on either side. -/
def cityOk (a b : Option String) : Bool :=
  sqlEq a b || a.isNone || b.isNone

/-- A row of the consecutive_winners CTE (the SELECT list of the query
in find_consecutive_winner_duplicates). -/
structure ConsRow where
  district_id : String
  office : String
  election_1 : String
  election_2 : String
  id_1 : Nat
  name_1 : Option String
  last_name_1 : Option String
  city_1 : Option String
  id_2 : Nat
  name_2 : Option String
  last_name_2 : Option String
  city_2 : Option String
  is_incumbent : Nat
deriving DecidableEq

/-- The consecutive_winners CTE: join each election to its winner, to
every later election of the same district and office with no election
strictly between the two, and to that election's winner.  Dates are
ISO-format strings compared lexicographically, as SQLite compares
text. -/
def consecutive_winners (db : DB) : List ConsRow :=
  db.general_election.flatMap fun e1 =>
    (db.election_candidate.filter fun c1 =>
        decide (c1.election_id = e1.election_id) && decide (c1.is_winner = 1)).flatMap fun c1 =>
      (db.general_election.filter fun e2 =>
          decide (e1.district_id = e2.district_id) && decide (e1.office_id = e2.office_id) &&
          strLt e1.election_date e2.election_date).flatMap fun e2 =>
        (db.election_candidate.filter fun c2 =>
            decide (c2.election_id = e2.election_id) && decide (c2.is_winner = 1)).filterMap fun c2 =>
          if ∃ e3 ∈ db.general_election,
              e3.district_id = e1.district_id ∧ e3.office_id = e1.office_id ∧
              strLt e1.election_date e3.election_date = true ∧
              strLt e3.election_date e2.election_date = true then
            none
          else
            some { district_id := e1.district_id, office := e1.office,
                   election_1 := e1.election_date, election_2 := e2.election_date,
                   id_1 := c1.candidate_id, name_1 := c1.name,
                   last_name_1 := c1.last_name, city_1 := c1.city_town,
                   id_2 := c2.candidate_id, name_2 := c2.name,
                   last_name_2 := c2.last_name, city_2 := c2.city_town,
                   is_incumbent := c2.is_incumbent }

/-- Sort relation for ORDER BY election_2 DESC (ties keep join order). -/
def consDescGE (a b : ConsRow) : Prop :=
  strLe b.election_2 a.election_2 = true

instance : DecidableRel consDescGE := fun a b => by
  unfold consDescGE; infer_instance

/-- find_consecutive_winner_duplicates from src/find_name_variations.py:
the WHERE clause of the outer SELECT, the ORDER BY, then the pandas
re-filter through names_match_with_abbreviation. -/
def find_consecutive_winner_duplicates (db : DB) : List ConsRow :=
  ((((consecutive_winners db).filter fun r =>
      decide (r.id_1 ≠ r.id_2) && sqlEq r.last_name_1 r.last_name_2 &&
      cityOk r.city_1 r.city_2 && decide (r.is_incumbent = 0) &&
      strLe "2016-01-01" r.election_2).insertionSort consDescGE).filter fun r =>
    names_match_with_abbreviation r.name_1 r.name_2)

/-- The full set of conditions under which a row of
find_consecutive_winner_duplicates can be emitted: two elections of the
same district and office that are chronologically consecutive (nothing
strictly between), the winners of each, distinct ids, equal non-NULL
last names, matching-or-unknown cities, a second winner flagged
not-incumbent, a second election on or after the 2016-01-01 cutoff, and
full names passing names_match_with_abbreviation. -/
def consecutive_winner_evidence (db : DB) (r : ConsRow) : Prop :=
  ∃ e1 ∈ db.general_election, ∃ e2 ∈ db.general_election,
    ∃ c1 ∈ db.election_candidate, ∃ c2 ∈ db.election_candidate,
      c1.election_id = e1.election_id ∧ c1.is_winner = 1 ∧
      c2.election_id = e2.election_id ∧ c2.is_winner = 1 ∧
      e1.district_id = e2.district_id ∧ e1.office_id = e2.office_id ∧
      strLt e1.election_date e2.election_date = true ∧
      (¬ ∃ e3 ∈ db.general_election,
          e3.district_id = e1.district_id ∧ e3.office_id = e1.office_id ∧
          strLt e1.election_date e3.election_date = true ∧
          strLt e3.election_date e2.election_date = true) ∧
      c1.candidate_id ≠ c2.candidate_id ∧
      sqlEq c1.last_name c2.last_name = true ∧
      cityOk c1.city_town c2.city_town = true ∧
      c2.is_incumbent = 0 ∧
      strLe "2016-01-01" e2.election_date = true ∧
      names_match_with_abbreviation c1.name c2.name = true ∧
      r = { district_id := e1.district_id, office := e1.office,
            election_1 := e1.election_date, election_2 := e2.election_date,
            id_1 := c1.candidate_id, name_1 := c1.name,
            last_name_1 := c1.last_name, city_1 := c1.city_town,
            id_2 := c2.candidate_id, name_2 := c2.name,
            last_name_2 := c2.last_name, city_2 := c2.city_town,
            is_incumbent := c2.is_incumbent }

/-- A row of the same-district query output. -/
structure SameDistRow where
  id_1 : Nat
  name_1 : Option String
  first_1 : Option String
  last_1 : Option String
  id_2 : Nat
  name_2 : Option String
  first_2 : Option String
  last_2 : Option String
  office : String
  district : String
  city_1 : Option String
  city_2 : Option String
  elections_1 : Nat
  elections_2 : Nat
deriving DecidableEq

/-- The join underlying find_same_district_duplicates, with both the ON
and the WHERE conditions. -/
def same_district_join (db : DB) : List (ElectionCandidate × ElectionCandidate) :=
  db.election_candidate.flatMap fun c1 =>
    (db.election_candidate.filter fun c2 =>
        decide (c1.district_id = c2.district_id) && decide (c1.office_id = c2.office_id) &&
        sqlEq c1.last_name c2.last_name && decide (c1.candidate_id < c2.candidate_id) &&
        cityOk c1.city_town c2.city_town &&
        sqlNe c1.last_name (some "") && sqlEq c1.first_name c2.first_name).map fun c2 => (c1, c2)

/-- GROUP BY c1.candidate_id, c2.candidate_id with the two
COUNT(DISTINCT election_id) aggregates.  The non-aggregated columns are
taken from the first row of each group in join order (SQLite picks an
arbitrary row of the group for bare columns). -/
def same_district_groups (rows : List (ElectionCandidate × ElectionCandidate)) : List SameDistRow :=
  (drop_duplicates (fun pr => (pr.1.candidate_id, pr.2.candidate_id)) rows).map fun pr =>
    let grp := rows.filter fun q =>
      decide (q.1.candidate_id = pr.1.candidate_id) && decide (q.2.candidate_id = pr.2.candidate_id)
    { id_1 := pr.1.candidate_id, name_1 := pr.1.name, first_1 := pr.1.first_name,
      last_1 := pr.1.last_name,
      id_2 := pr.2.candidate_id, name_2 := pr.2.name, first_2 := pr.2.first_name,
      last_2 := pr.2.last_name,
      office := pr.1.office, district := pr.1.district,
      city_1 := pr.1.city_town, city_2 := pr.2.city_town,
      elections_1 := (drop_duplicates id (grp.map fun q => q.1.election_id)).length,
      elections_2 := (drop_duplicates id (grp.map fun q => q.2.election_id)).length }

/-- Sort relation for ORDER BY elections_1 + elections_2 DESC. -/
def sameDistDescGE (a b : SameDistRow) : Prop :=
  b.elections_1 + b.elections_2 ≤ a.elections_1 + a.elections_2

instance : DecidableRel sameDistDescGE := fun a b => by
  unfold sameDistDescGE; infer_instance

/-- find_same_district_duplicates from src/find_name_variations.py:
join, group, HAVING, ORDER BY, then the pandas re-filter through
names_match_with_abbreviation. -/
def find_same_district_duplicates (db : DB) : List SameDistRow :=
  ((((same_district_groups (same_district_join db)).filter fun r =>
      decide (0 < r.elections_1) && decide (0 < r.elections_2)).insertionSort
        sameDistDescGE).filter fun r =>
    names_match_with_abbreviation r.name_1 r.name_2)

/-! ### src/find_name_variations.py, merge step -/

/-- A detector output row as sliced by combine_results: the common
column shape (id_1, name_1, id_2, name_2, office, district_id). -/
structure DetRow where
  id_1 : Nat
  name_1 : Option String
  id_2 : Nat
  name_2 : Option String
  office : String
  district_id : String
deriving DecidableEq

/-- A merged row: the common shape plus detection_method and
confidence. -/
structure MergedRow where
  id_1 : Nat
  name_1 : Option String
  id_2 : Nat
  name_2 : Option String
  office : String
  district_id : String
  detection_method : String
  confidence : String
deriving DecidableEq

/-- The consecutive-winner block of combine_results. -/
def toConsResult (r : DetRow) : MergedRow :=
  { id_1 := r.id_1, name_1 := r.name_1, id_2 := r.id_2, name_2 := r.name_2,
    office := r.office, district_id := r.district_id,
    detection_method := "consecutive_winner", confidence := "high" }

/-- The same-district block of combine_results (district renamed to
district_id). -/
def toSameDistResult (r : DetRow) : MergedRow :=
  { id_1 := r.id_1, name_1 := r.name_1, id_2 := r.id_2, name_2 := r.name_2,
    office := r.office, district_id := r.district_id,
    detection_method := "same_district", confidence := "medium" }

/-- The unordered pair key tuple(sorted([id_1, id_2])). -/
def id_pair (r : MergedRow) : Nat × Nat :=
  if r.id_1 ≤ r.id_2 then (r.id_1, r.id_2) else (r.id_2, r.id_1)

/-- The confidence_order dictionary lookup (only high and medium occur
in the data this function receives). -/
def confidence_order (c : String) : Nat :=
  if c = "high" then 2 else if c = "medium" then 1 else 0

/-- Descending comparison on confidence_score: a precedes b when b's
score is at most a's.  Ties relate both ways, so insertion sort keeps
their original order. -/
def scoreGE (a b : MergedRow) : Prop :=
  confidence_order b.confidence ≤ confidence_order a.confidence

instance : DecidableRel scoreGE := fun a b => by
  unfold scoreGE; infer_instance

/-- pandas sort_values on a single key with ascending=False performs a
stable descending sort (nargsort reverses the array before the
ascending argsort and un-reverses the indexer after), so rows with
equal keys keep their original input order. -/
def sort_values_score_desc (l : List MergedRow) : List MergedRow :=
  l.insertionSort scoreGE

/-- Sort relation for the final multi-key
sort_values([confidence, id_2], ascending=[False, False]), which is
stable (pandas lexsort): a precedes b when the key of b is at most the
key of a, descending lexicographically on the confidence string and
then on id_2. -/
def finalGE (a b : MergedRow) : Prop :=
  strLt b.confidence a.confidence = true ∨ (b.confidence = a.confidence ∧ b.id_2 ≤ a.id_2)

instance : DecidableRel finalGE := fun a b => by
  unfold finalGE
  infer_instance

/-- combine_results from src/find_name_variations.py: tag and
concatenate the two detector outputs, sort by confidence score
descending, drop later rows with a duplicate unordered id pair, and
sort the survivors by (confidence, id_2) descending.  The id_pair and
confidence_score helper columns are computed on the fly, matching their
addition and later removal in the source. -/
def combine_results (consecutive_df same_district_df : List DetRow) : List MergedRow :=
  (drop_duplicates id_pair
    (sort_values_score_desc
      (consecutive_df.map toConsResult ++
        same_district_df.map toSameDistResult))).insertionSort finalGE

/-- A row of the suggested-mappings output of main. -/
structure MapRow where
  id_dup : Nat
  id_canonical : Nat
  name_canonical : Option String
  note : String
deriving DecidableEq

/-- The suggested-mapping rendering in main: id_dup is id_2,
id_canonical is id_1, and the note records method and confidence. -/
def suggested_id_mappings (consecutive_df same_district_df : List DetRow) : List MapRow :=
  (combine_results consecutive_df same_district_df).map fun r =>
    { id_dup := r.id_2, id_canonical := r.id_1, name_canonical := r.name_1,
      note := r.detection_method ++ " - " ++ r.confidence ++ " confidence" }

/-! ### Concrete fixtures used by witnesses and counterexamples -/

/-- A two-row participation CSV whose descending sort reverses the row
order. -/
def cand_row_1 : Cand :=
  { candidate_id := 1, election_id := 10, name := "John Smith",
    office := "State Senate", district := "1st Essex", city_town := "Salem" }

/-- The second participation row, a later id with the identical name. -/
def cand_row_2 : Cand :=
  { candidate_id := 2, election_id := 11, name := "John Smith",
    office := "State Senate", district := "1st Essex", city_town := "Salem" }

/-- The two-row CSV in its original file order. -/
def dup_input : List Cand := [cand_row_1, cand_row_2]

/-- A merge input row whose pref_id matches neither id of the pair. -/
def pref_row_ex : PrefRow :=
  { id_1 := 1, id_2 := 2, name_1 := "John Smith", name_2 := "Jon Smith",
    office_1 := "State Senate", district_1 := "1st Essex", city_town_1 := "Salem",
    office_2 := "State Senate", district_2 := "1st Essex", city_town_2 := "Salem",
    pref_id := 99 }

/-- An election fixture: the 2018 general in a single district. -/
def election_2018 : GeneralElection :=
  { election_id := 100, district_id := "7th Middlesex", office := "State Representative",
    office_id := 5, election_date := "2018-11-06" }

/-- The next general election of the same district and office. -/
def election_2020 : GeneralElection :=
  { election_id := 101, district_id := "7th Middlesex", office := "State Representative",
    office_id := 5, election_date := "2020-11-03" }

/-- Winner of the 2018 fixture election. -/
def winner_2018 : ElectionCandidate :=
  { election_id := 100, candidate_id := 10, name := some "John A. Smith",
    first_name := some "John", last_name := some "Smith", city_town := some "Framingham",
    office := "State Representative", district := "7th Middlesex",
    district_id := "7th Middlesex", office_id := 5, is_winner := 1, is_incumbent := 1 }

/-- Winner of the 2020 fixture election: a new id, the same surname,
and an incumbency flag claiming discontinuity. -/
def winner_2020 : ElectionCandidate :=
  { election_id := 101, candidate_id := 11, name := some "John Smith",
    first_name := some "John", last_name := some "Smith", city_town := some "Framingham",
    office := "State Representative", district := "7th Middlesex",
    district_id := "7th Middlesex", office_id := 5, is_winner := 1, is_incumbent := 0 }

/-- The fixture database for the consecutive-winner detector. -/
def db_ex : DB :=
  { general_election := [election_2018, election_2020],
    election_candidate := [winner_2018, winner_2020] }

/-- The row the consecutive-winner detector reports on db_ex. -/
def cons_row_ex : ConsRow :=
  { district_id := "7th Middlesex", office := "State Representative",
    election_1 := "2018-11-06", election_2 := "2020-11-03",
    id_1 := 10, name_1 := some "John A. Smith", last_name_1 := some "Smith",
    city_1 := some "Framingham",
    id_2 := 11, name_2 := some "John Smith", last_name_2 := some "Smith",
    city_2 := some "Framingham", is_incumbent := 0 }

/-- A detected pair linking ids 1 and 2. -/
def det_row_ab : DetRow :=
  { id_1 := 1, name_1 := some "Pat Jones", id_2 := 2, name_2 := some "Pat A. Jones",
    office := "State Senate", district_id := "2nd Suffolk" }

/-- A detected pair linking ids 2 and 3, chained onto the previous
one. -/
def det_row_bc : DetRow :=
  { id_1 := 2, name_1 := some "Pat A. Jones", id_2 := 3, name_2 := some "Patricia Jones",
    office := "State Senate", district_id := "2nd Suffolk" }

/-! ### Theorems -/

/-- Appending nothing for every element flattens to nothing. -/
theorem flatMap_const_nil {α β : Type} (l : List α) :
    (l.flatMap fun _ => ([] : List β)) = [] := by
  induction l with
  | nil => rfl
  | cons x xs ih => simp [List.flatMap_cons, ih]

/-- C8: names_match_with_abbreviation answers false on Jo Comerford
versus Joanne M. Comerford; the token jo is not a token of the longer
name, so the subset rule cannot fire, and the two first tokens
normalize to jo and joanne, so the first/last-token rule cannot
fire. -/
theorem jo_comerford_not_matched :
    names_match_with_abbreviation (some "Jo Comerford") (some "Joanne M. Comerford") = false ∧
    ((pySplit (normStr "Joanne M. Comerford")).contains "jo") = false ∧
    normStr "Jo" ≠ normStr "Joanne" := by
  decide

/-- C9: a non-missing name that normalizes to the empty string matches
every non-missing name: its empty token set is a subset of any token
set, and when the other side also normalizes to empty the exact-match
rule fires first. -/
theorem names_match_of_empty_norm (n1 n2 : String) (h : normStr n1 = "") :
    names_match_with_abbreviation (some n1) (some n2) = true := by
  unfold names_match_with_abbreviation
  by_cases h2 : normStr n2 = ""
  · simp [h, h2]
  · have hw : pySplit "" = [] := rfl
    simp [h, h2, subsetB, Ne.symm h2]
    exact Or.inl (Or.inl (by simp [hw]))

/-- Witness for C9 at a concrete punctuation-only name. -/
theorem names_match_of_empty_norm_witness :
    normStr "..." = "" ∧
    names_match_with_abbreviation (some "...") (some "John Smith") = true :=
  ⟨by decide, names_match_of_empty_norm "..." "John Smith" (by decide)⟩

/-- C10: transform_for_report maps each row through transform_row, and
transform_row tests only whether pref_id equals id_1: whenever the two
differ, including when pref_id is neither id of the pair, side 2 is
reported as preferred and side 1 as the duplicate, with no
validation. -/
theorem transform_orients_by_id_1_only (df : List PrefRow) (row : PrefRow)
    (h : row.pref_id ≠ row.id_1) :
    transform_for_report df = df.map transform_row ∧
    (transform_row row).id_pref = row.id_2 ∧
    (transform_row row).name_pref = row.name_2 ∧
    (transform_row row).id_dup = row.id_1 ∧
    (transform_row row).name_dup = row.name_1 := by
  refine ⟨rfl, ?_, ?_, ?_, ?_⟩ <;> simp [transform_row, h]

/-- Witness for C10: a row whose pref_id equals neither id is silently
oriented with side 2 preferred. -/
theorem transform_orients_by_id_1_only_witness :
    pref_row_ex.pref_id ≠ pref_row_ex.id_1 ∧
    (transform_for_report [pref_row_ex] = [pref_row_ex].map transform_row ∧
      (transform_row pref_row_ex).id_pref = pref_row_ex.id_2 ∧
      (transform_row pref_row_ex).name_pref = pref_row_ex.name_2 ∧
      (transform_row pref_row_ex).id_dup = pref_row_ex.id_1 ∧
      (transform_row pref_row_ex).name_dup = pref_row_ex.name_1) :=
  ⟨by decide, transform_orients_by_id_1_only [pref_row_ex] pref_row_ex (by decide)⟩

/-- C1: the spelling scan over the universe built by main is not
exhaustive.  On the two-row CSV dup_input the descending sort gives the
universe index labels 1 and 0, iterrows yields those labels while iloc
slices by position, and so no distinct pair is ever compared: the
detector returns nothing for every similarity scorer, although the
universe holds two distinct candidate ids bearing identical names
(ratio 100 > 90 for any reasonable scorer, which is never even
consulted). -/
theorem spelling_scan_not_exhaustive (ratio : String → String → Nat) :
    cands_universe dup_input = [(1, cand_row_2), (0, cand_row_1)] ∧
    potential_duplicates ratio (cands_universe dup_input) = [] ∧
    cand_row_1.candidate_id ≠ cand_row_2.candidate_id ∧
    cand_row_1.name = cand_row_2.name := by
  have hu : cands_universe dup_input = [(1, cand_row_2), (0, cand_row_1)] := by decide
  refine ⟨hu, ?_, by decide, rfl⟩
  rw [hu]
  rfl

/-- C4: the consecutive-winner detector emits a pair only when all the
conditions of consecutive_winner_evidence hold: consecutive elections
of one district and office, both candidates winners with different
ids, exactly equal last names, matching-or-unknown city, second winner
not flagged incumbent, second election on or after the cutoff, and
names passing names_match_with_abbreviation. -/
theorem consecutive_winner_rows_sound (db : DB) (r : ConsRow)
    (h : r ∈ find_consecutive_winner_duplicates db) :
    consecutive_winner_evidence db r := by
  unfold find_consecutive_winner_duplicates at h
  rw [List.mem_filter] at h
  obtain ⟨hs, hnm⟩ := h
  have hw := (List.perm_insertionSort consDescGE _).subset hs
  rw [List.mem_filter] at hw
  obtain ⟨hraw, hcond⟩ := hw
  unfold consecutive_winners at hraw
  rw [List.mem_flatMap] at hraw
  obtain ⟨e1, he1, hraw⟩ := hraw
  rw [List.mem_flatMap] at hraw
  obtain ⟨c1, hc1, hraw⟩ := hraw
  rw [List.mem_flatMap] at hraw
  obtain ⟨e2, he2, hraw⟩ := hraw
  rw [List.mem_filterMap] at hraw
  obtain ⟨c2, hc2, hmk⟩ := hraw
  rw [List.mem_filter] at hc1
  obtain ⟨hc1m, hc1f⟩ := hc1
  rw [List.mem_filter] at he2
  obtain ⟨he2m, he2f⟩ := he2
  rw [List.mem_filter] at hc2
  obtain ⟨hc2m, hc2f⟩ := hc2
  simp only [Bool.and_eq_true, decide_eq_true_eq] at hc1f he2f hc2f
  split at hmk
  · exact absurd hmk (by simp)
  · rename_i hno3
    injection hmk with hXr
    subst hXr
    simp only [Bool.and_eq_true, decide_eq_true_eq] at hcond
    exact ⟨e1, he1, e2, he2m, c1, hc1m, c2, hc2m,
      hc1f.1, hc1f.2, hc2f.1, hc2f.2,
      he2f.1.1, he2f.1.2, he2f.2, hno3,
      hcond.1.1.1.1, hcond.1.1.1.2, hcond.1.1.2, hcond.1.2, hcond.2, hnm, rfl⟩

/-- Witness for C4: the fixture database makes the detector emit
cons_row_ex, and the evidence conditions hold for it. -/
theorem consecutive_winner_rows_sound_witness :
    cons_row_ex ∈ find_consecutive_winner_duplicates db_ex ∧
    consecutive_winner_evidence db_ex cons_row_ex :=
  ⟨by decide, consecutive_winner_rows_sound db_ex cons_row_ex (by decide)⟩

/-- Python set equality is symmetric. -/
theorem setEqB_comm (x y : List Char) : setEqB x y = setEqB y x := by
  unfold setEqB
  exact Bool.and_comm _ _

/-- C6: names_match_with_abbreviation is symmetric, missing inputs
included: every rule it applies (exact normalized match, mutual token
subset, first/last-token agreement with token-count or interior-initial
agreement) is invariant under swapping the two names. -/
theorem names_match_with_abbreviation_symm (a b : Option String) :
    names_match_with_abbreviation a b = names_match_with_abbreviation b a := by
  cases a with
  | none => cases b <;> rfl
  | some n1 =>
    cases b with
    | none => rfl
    | some n2 =>
      simp only [names_match_with_abbreviation]
      by_cases h1 : normStr n1 = normStr n2
      · rw [if_pos h1, if_pos h1.symm]
      · rw [if_neg h1, if_neg (fun h : normStr n2 = normStr n1 => h1 h.symm)]
        simp only [Bool.or_comm (subsetB (pySplit (normStr n2)) (pySplit (normStr n1)))
          (subsetB (pySplit (normStr n1)) (pySplit (normStr n2)))]
        by_cases h2 : (subsetB (pySplit (normStr n1)) (pySplit (normStr n2)) ||
            subsetB (pySplit (normStr n2)) (pySplit (normStr n1))) = true
        · rw [if_pos h2, if_pos h2]
        · rw [if_neg h2, if_neg h2]
          by_cases h3 : 2 ≤ (pySplit n1).length ∧ 2 ≤ (pySplit n2).length
          · rw [if_pos h3, if_pos (And.intro h3.2 h3.1)]
            by_cases h4 : normStr ((pySplit n1).getD 0 "") = normStr ((pySplit n2).getD 0 "")
            · rw [if_pos h4, if_pos h4.symm]
              by_cases h5 : normStr ((pySplit n1).getLastD "") = normStr ((pySplit n2).getLastD "")
              · rw [if_pos h5, if_pos h5.symm]
                by_cases h6 : (pySplit n1).length ≠ (pySplit n2).length
                · rw [if_pos h6, if_pos (Ne.symm h6)]
                · rw [if_neg h6,
                    if_neg (fun h : (pySplit n2).length ≠ (pySplit n1).length => h6 (Ne.symm h))]
                  exact setEqB_comm _ _
              · rw [if_neg h5,
                  if_neg (fun h : normStr ((pySplit n2).getLastD "") =
                    normStr ((pySplit n1).getLastD "") => h5 h.symm)]
            · rw [if_neg h4,
                if_neg (fun h : normStr ((pySplit n2).getD 0 "") =
                  normStr ((pySplit n1).getD 0 "") => h4 h.symm)]
          · rw [if_neg h3,
              if_neg (fun h : 2 ≤ (pySplit n2).length ∧ 2 ≤ (pySplit n1).length =>
                h3 ⟨h.2, h.1⟩)]

/-! ### Character-level facts (C7) -/

/-- Characters are equal exactly when their codepoints are. -/
theorem char_eq_iff_toNat {c d : Char} : c = d ↔ c.toNat = d.toNat :=
  ⟨fun h => h ▸ rfl, fun h => Char.ext (UInt32.ext h)⟩

/-- Unfolding of Char.toLower. -/
theorem toLower_eq (c : Char) :
    c.toLower = if 65 ≤ c.toNat ∧ c.toNat ≤ 90 then Char.ofNat (c.toNat + 32) else c := rfl

/-- Codepoint of Char.ofNat below the surrogate range. -/
theorem toNat_ofNat_of_lt {n : Nat} (h : n < 55296) : (Char.ofNat n).toNat = n := by
  rw [Char.ofNat, dif_pos (Or.inl h)]
  rfl

/-- Codepoint of Char.toLower. -/
theorem toNat_toLower (c : Char) :
    c.toLower.toNat = if 65 ≤ c.toNat ∧ c.toNat ≤ 90 then c.toNat + 32 else c.toNat := by
  rw [toLower_eq]
  split
  · rename_i h
    exact toNat_ofNat_of_lt (by omega)
  · rfl

/-- Char.toLower is idempotent. -/
theorem toLower_toLower (c : Char) : c.toLower.toLower = c.toLower := by
  by_cases h : 65 ≤ c.toNat ∧ c.toNat ≤ 90
  · conv_lhs => rw [toLower_eq c.toLower]
    rw [toNat_toLower c]
    simp only [if_pos h]
    rw [if_neg (by omega)]
  · conv_lhs => rw [toLower_eq c.toLower]
    rw [toNat_toLower c]
    simp only [if_neg h]

/-- pyIsSpace in terms of the codepoint. -/
theorem pyIsSpace_iff {c : Char} :
    pyIsSpace c = true ↔
      (c.toNat = 32 ∨ c.toNat = 9 ∨ c.toNat = 10 ∨ c.toNat = 13 ∨
        c.toNat = 11 ∨ c.toNat = 12) := by
  unfold pyIsSpace
  simp only [Bool.or_eq_true, decide_eq_true_eq, char_eq_iff_toNat,
    show (' ').toNat = 32 from rfl, show ('\t').toNat = 9 from rfl,
    show ('\n').toNat = 10 from rfl, show ('\r').toNat = 13 from rfl,
    show ('\x0b').toNat = 11 from rfl, show ('\x0c').toNat = 12 from rfl]
  tauto

/-- Bridge from UInt32 comparison against the value of a character. -/
theorem uint32_le_val_iff {n : UInt32} {c : Char} : n ≤ c.val ↔ n.toNat ≤ c.toNat := by
  rw [UInt32.le_def, BitVec.le_def]
  exact Iff.rfl

/-- Bridge from UInt32 comparison of the value of a character. -/
theorem val_le_uint32_iff {n : UInt32} {c : Char} : c.val ≤ n ↔ c.toNat ≤ n.toNat := by
  rw [UInt32.le_def, BitVec.le_def]
  exact Iff.rfl

/-- keepChar in terms of the codepoint. -/
theorem keepChar_iff {c : Char} :
    keepChar c = true ↔
      ((65 ≤ c.toNat ∧ c.toNat ≤ 90) ∨ (97 ≤ c.toNat ∧ c.toNat ≤ 122) ∨
        (48 ≤ c.toNat ∧ c.toNat ≤ 57) ∨ c.toNat = 95 ∨ pyIsSpace c = true) := by
  unfold keepChar pyIsWord
  simp only [Char.isAlphanum, Char.isAlpha, Char.isUpper, Char.isLower, Char.isDigit,
    Bool.or_eq_true, Bool.and_eq_true, decide_eq_true_eq, ge_iff_le,
    uint32_le_val_iff, val_le_uint32_iff, char_eq_iff_toNat,
    show (65 : UInt32).toNat = 65 from rfl, show (90 : UInt32).toNat = 90 from rfl,
    show (97 : UInt32).toNat = 97 from rfl, show (122 : UInt32).toNat = 122 from rfl,
    show (48 : UInt32).toNat = 48 from rfl, show (57 : UInt32).toNat = 57 from rfl,
    show ('_').toNat = 95 from rfl]
  tauto

/-- Lowercasing does not change whitespace classification. -/
theorem pyIsSpace_toLower (c : Char) : pyIsSpace c.toLower = pyIsSpace c := by
  by_cases h : 65 ≤ c.toNat ∧ c.toNat ≤ 90
  · have h1 : pyIsSpace c.toLower = false := by
      rw [← Bool.not_eq_true, pyIsSpace_iff, toNat_toLower, if_pos h]
      omega
    have h2 : pyIsSpace c = false := by
      rw [← Bool.not_eq_true, pyIsSpace_iff]
      omega
    rw [h1, h2]
  · rw [toLower_eq, if_neg h]

/-- Lowercasing does not change the kept-character classification. -/
theorem keepChar_toLower (c : Char) : keepChar c.toLower = keepChar c := by
  by_cases h : 65 ≤ c.toNat ∧ c.toNat ≤ 90
  · have h1 : keepChar c.toLower = true := by
      rw [keepChar_iff, toNat_toLower, if_pos h]
      omega
    have h2 : keepChar c = true := by
      rw [keepChar_iff]
      omega
    rw [h1, h2]
  · rw [toLower_eq, if_neg h]

/-! ### Whitespace-normalization facts (C7) -/

/-- Dropping a prefix twice is dropping it once. -/
theorem dropWhile_idem (p : Char → Bool) (l : List Char) :
    (l.dropWhile p).dropWhile p = l.dropWhile p := by
  induction l with
  | nil => rfl
  | cons c cs ih =>
    by_cases h : p c = true
    · rw [List.dropWhile_cons_of_pos h, ih]
    · rw [List.dropWhile_cons_of_neg (by simp [h]), List.dropWhile_cons_of_neg (by simp [h])]

/-- dropTrail empties a list exactly when it is all whitespace. -/
theorem dropTrail_eq_nil_iff (l : List Char) :
    dropTrail l = [] ↔ ∀ c ∈ l, pyIsSpace c = true := by
  induction l with
  | nil => simp [dropTrail]
  | cons c cs ih =>
    rw [dropTrail]
    cases hsp : pyIsSpace c with
    | false =>
      simp only [Bool.false_and, if_neg Bool.false_ne_true]
      simp [hsp]
    | true =>
      cases hdt : dropTrail cs with
      | nil =>
        simp only [hdt, List.isEmpty_nil, Bool.and_true, if_pos hsp]
        simp [hsp, ← ih, hdt]
      | cons x xs =>
        simp only [hdt, List.isEmpty_cons, Bool.and_false, if_neg Bool.false_ne_true]
        simp [← ih, hdt]

/-- dropTrail is idempotent. -/
theorem dropTrail_idem (l : List Char) : dropTrail (dropTrail l) = dropTrail l := by
  induction l with
  | nil => rfl
  | cons c cs ih =>
    rw [dropTrail]
    by_cases hcond : (pyIsSpace c && (dropTrail cs).isEmpty) = true
    · rw [if_pos hcond]
      rfl
    · rw [if_neg hcond, dropTrail, ih, if_neg hcond]

/-- Leading and trailing whitespace removal commute. -/
theorem dropWhile_dropTrail (l : List Char) :
    (dropTrail l).dropWhile pyIsSpace = dropTrail (l.dropWhile pyIsSpace) := by
  induction l with
  | nil => rfl
  | cons c cs ih =>
    by_cases hsp : pyIsSpace c = true
    · by_cases hnil : dropTrail cs = []
      · rw [dropTrail, if_pos (by simp [hsp, hnil])]
        have hall : ∀ x ∈ cs, pyIsSpace x = true := (dropTrail_eq_nil_iff cs).mp hnil
        rw [List.dropWhile_cons_of_pos hsp, List.dropWhile_eq_nil_iff.mpr hall]
        rfl
      · rw [dropTrail, if_neg (by simp [hsp, hnil]), List.dropWhile_cons_of_pos hsp,
          List.dropWhile_cons_of_pos hsp, ih]
    · rw [dropTrail, if_neg (by simp [hsp]), List.dropWhile_cons_of_neg (by simp [hsp]),
        List.dropWhile_cons_of_neg (by simp [hsp]), dropTrail, if_neg (by simp [hsp])]

/-- The collapse pass in skipping mode equals the collapse pass after
removing the leading whitespace run. -/
theorem collapseWs_true_eq (cs : List Char) :
    collapseWs true cs = collapseWs false (cs.dropWhile pyIsSpace) := by
  induction cs with
  | nil => rfl
  | cons c t ih =>
    by_cases hsp : pyIsSpace c = true
    · rw [show collapseWs true (c :: t) = collapseWs true t by simp [collapseWs, hsp],
        List.dropWhile_cons_of_pos hsp, ih]
    · rw [List.dropWhile_cons_of_neg (by simp [hsp])]
      simp [collapseWs, hsp]

/-- Collapsing an all-whitespace list in skipping mode gives nothing. -/
theorem collapseWs_true_of_all {cs : List Char} (h : ∀ x ∈ cs, pyIsSpace x = true) :
    collapseWs true cs = [] := by
  rw [collapseWs_true_eq, List.dropWhile_eq_nil_iff.mpr h]
  rfl

/-- If the collapse output is all whitespace, so was the input. -/
theorem all_space_of_collapseWs {cs : List Char} :
    ∀ {b}, (∀ x ∈ collapseWs b cs, pyIsSpace x = true) → ∀ x ∈ cs, pyIsSpace x = true := by
  induction cs with
  | nil => intro b _ x hx; cases hx
  | cons c t ih =>
    intro b h x hx
    by_cases hsp : pyIsSpace c = true
    · rcases List.mem_cons.mp hx with rfl | hxt
      · exact hsp
      · refine ih (b := true) ?_ x hxt
        intro y hy
        cases b
        · exact h y (by simp [collapseWs, hsp, hy])
        · exact h y (by simp [collapseWs, hsp, hy])
    · exact absurd (h c (by simp [collapseWs, hsp])) (by simp [hsp])

/-- Every character of the collapse output is an input character or a
plain space. -/
theorem mem_collapseWs {x : Char} {cs : List Char} :
    ∀ {b}, x ∈ collapseWs b cs → x ∈ cs ∨ x = ' ' := by
  induction cs with
  | nil => intro b h; cases h
  | cons c t ih =>
    intro b h
    by_cases hsp : pyIsSpace c = true
    · cases b
      · rw [show collapseWs false (c :: t) = ' ' :: collapseWs true t by
          simp [collapseWs, hsp]] at h
        rcases List.mem_cons.mp h with rfl | h'
        · exact Or.inr rfl
        · rcases ih h' with hx | hx
          · exact Or.inl (List.mem_cons_of_mem c hx)
          · exact Or.inr hx
      · rw [show collapseWs true (c :: t) = collapseWs true t by simp [collapseWs, hsp]] at h
        rcases ih h with hx | hx
        · exact Or.inl (List.mem_cons_of_mem c hx)
        · exact Or.inr hx
    · rw [show collapseWs b (c :: t) = c :: collapseWs false t by simp [collapseWs, hsp]] at h
      rcases List.mem_cons.mp h with rfl | h'
      · exact Or.inl (List.mem_cons_self x t)
      · rcases ih h' with hx | hx
        · exact Or.inl (List.mem_cons_of_mem c hx)
        · exact Or.inr hx

/-- dropTrail keeps only input characters. -/
theorem mem_dropTrail {x : Char} {l : List Char} (h : x ∈ dropTrail l) : x ∈ l := by
  induction l with
  | nil => cases h
  | cons c cs ih =>
    rw [dropTrail] at h
    split at h
    · cases h
    · rcases List.mem_cons.mp h with rfl | h'
      · exact List.mem_cons_self x cs
      · exact List.mem_cons_of_mem c (ih h')

/-- The collapse pass applied after removing leading whitespace starts
with a non-whitespace character, so a further leading-whitespace drop
does nothing. -/
theorem dropWhile_collapseWs_dropWhile (l : List Char) :
    (collapseWs false (l.dropWhile pyIsSpace)).dropWhile pyIsSpace =
      collapseWs false (l.dropWhile pyIsSpace) := by
  cases hd : l.dropWhile pyIsSpace with
  | nil => rfl
  | cons c t =>
    have hc : pyIsSpace c = false := by
      have hh := List.head?_dropWhile_not pyIsSpace l
      rw [hd] at hh
      simpa using hh
    rw [show collapseWs false (c :: t) = c :: collapseWs false t by simp [collapseWs, hc]]
    exact List.dropWhile_cons_of_neg (by simp [hc])

/-- Leading-whitespace removal commutes with the collapse pass. -/
theorem dropWhile_collapseWs_false (m : List Char) :
    (collapseWs false m).dropWhile pyIsSpace = collapseWs false (m.dropWhile pyIsSpace) := by
  cases m with
  | nil => rfl
  | cons c cs =>
    by_cases hsp : pyIsSpace c = true
    · rw [show collapseWs false (c :: cs) = ' ' :: collapseWs true cs by simp [collapseWs, hsp],
        List.dropWhile_cons_of_pos (show pyIsSpace ' ' = true from rfl),
        collapseWs_true_eq, List.dropWhile_cons_of_pos hsp]
      exact dropWhile_collapseWs_dropWhile cs
    · rw [List.dropWhile_cons_of_neg (by simp [hsp]),
        show collapseWs false (c :: cs) = c :: collapseWs false cs by simp [collapseWs, hsp]]
      exact List.dropWhile_cons_of_neg (by simp [hsp])

/-- Trailing-whitespace removal commutes with the collapse pass. -/
theorem collapseWs_dropTrail (w : List Char) :
    ∀ b, collapseWs b (dropTrail w) = dropTrail (collapseWs b w) := by
  induction w with
  | nil => intro b; rfl
  | cons c cs ih =>
    intro b
    by_cases hsp : pyIsSpace c = true
    · by_cases hnil : dropTrail cs = []
      · rw [dropTrail, if_pos (by simp [hsp, hnil])]
        have hall : ∀ x ∈ cs, pyIsSpace x = true := (dropTrail_eq_nil_iff cs).mp hnil
        cases b
        · rw [show collapseWs false (c :: cs) = ' ' :: collapseWs true cs by
            simp [collapseWs, hsp], collapseWs_true_of_all hall]
          rfl
        · rw [show collapseWs true (c :: cs) = collapseWs true cs by simp [collapseWs, hsp],
            collapseWs_true_of_all hall]
          rfl
      · rw [dropTrail, if_neg (by simp [hsp, hnil])]
        have hne : dropTrail (collapseWs true cs) ≠ [] := by
          intro hnil2
          exact hnil ((dropTrail_eq_nil_iff cs).mpr
            (all_space_of_collapseWs ((dropTrail_eq_nil_iff _).mp hnil2)))
        cases b
        · rw [show collapseWs false (c :: dropTrail cs) =
              ' ' :: collapseWs true (dropTrail cs) by simp [collapseWs, hsp],
            ih true,
            show collapseWs false (c :: cs) = ' ' :: collapseWs true cs by
              simp [collapseWs, hsp],
            dropTrail, if_neg (by simp [hne])]
        · rw [show collapseWs true (c :: dropTrail cs) = collapseWs true (dropTrail cs) by
              simp [collapseWs, hsp],
            ih true,
            show collapseWs true (c :: cs) = collapseWs true cs by simp [collapseWs, hsp]]
    · rw [dropTrail, if_neg (by simp [hsp]),
        show collapseWs b (c :: dropTrail cs) = c :: collapseWs false (dropTrail cs) by
          simp [collapseWs, hsp],
        ih false,
        show collapseWs b (c :: cs) = c :: collapseWs false cs by simp [collapseWs, hsp],
        dropTrail, if_neg (by simp [hsp])]

/-- The collapse pass is idempotent. -/
theorem collapseWs_idem (l : List Char) :
    ∀ b, collapseWs b (collapseWs b l) = collapseWs b l := by
  induction l with
  | nil => intro b; rfl
  | cons c cs ih =>
    intro b
    by_cases hsp : pyIsSpace c = true
    · cases b
      · rw [show collapseWs false (c :: cs) = ' ' :: collapseWs true cs by
            simp [collapseWs, hsp],
          show collapseWs false (' ' :: collapseWs true cs) =
              ' ' :: collapseWs true (collapseWs true cs) by
            simp [collapseWs, show pyIsSpace ' ' = true from rfl],
          ih true]
      · rw [show collapseWs true (c :: cs) = collapseWs true cs by simp [collapseWs, hsp],
          ih true]
    · rw [show collapseWs b (c :: cs) = c :: collapseWs false cs by simp [collapseWs, hsp],
        show collapseWs b (c :: collapseWs false cs) =
            c :: collapseWs false (collapseWs false cs) by simp [collapseWs, hsp],
        ih false]

/-- Leading-whitespace removal commutes with lowercasing. -/
theorem dropWhile_map_toLower (l : List Char) :
    (l.map Char.toLower).dropWhile pyIsSpace = (l.dropWhile pyIsSpace).map Char.toLower := by
  have hp : (pyIsSpace ∘ Char.toLower) = pyIsSpace := funext fun c => pyIsSpace_toLower c
  rw [List.dropWhile_map, hp]

/-- Trailing-whitespace removal commutes with lowercasing. -/
theorem dropTrail_map_toLower (l : List Char) :
    dropTrail (l.map Char.toLower) = (dropTrail l).map Char.toLower := by
  induction l with
  | nil => rfl
  | cons c cs ih =>
    rw [List.map_cons, dropTrail, dropTrail, ih, pyIsSpace_toLower]
    cases hdt : dropTrail cs with
    | nil => by_cases hsp : pyIsSpace c = true <;> simp [hsp]
    | cons x xs => simp

/-- The collapse pass commutes with lowercasing. -/
theorem collapseWs_map_toLower (l : List Char) :
    ∀ b, collapseWs b (l.map Char.toLower) = (collapseWs b l).map Char.toLower := by
  induction l with
  | nil => intro b; rfl
  | cons c cs ih =>
    intro b
    by_cases hsp : pyIsSpace c = true
    · have hsp2 : pyIsSpace c.toLower = true := by rw [pyIsSpace_toLower]; exact hsp
      cases b
      · rw [List.map_cons,
          show collapseWs false (c.toLower :: cs.map Char.toLower) =
              ' ' :: collapseWs true (cs.map Char.toLower) by simp [collapseWs, hsp2],
          ih true,
          show collapseWs false (c :: cs) = ' ' :: collapseWs true cs by
            simp [collapseWs, hsp],
          List.map_cons, show (' ').toLower = ' ' from rfl]
      · rw [List.map_cons,
          show collapseWs true (c.toLower :: cs.map Char.toLower) =
              collapseWs true (cs.map Char.toLower) by simp [collapseWs, hsp2],
          ih true,
          show collapseWs true (c :: cs) = collapseWs true cs by simp [collapseWs, hsp]]
    · have hsp2 : pyIsSpace c.toLower = false := by rw [pyIsSpace_toLower]; simpa using hsp
      rw [List.map_cons,
        show collapseWs b (c.toLower :: cs.map Char.toLower) =
            c.toLower :: collapseWs false (cs.map Char.toLower) by simp [collapseWs, hsp2],
        ih false,
        show collapseWs b (c :: cs) = c :: collapseWs false cs by simp [collapseWs, hsp],
        List.map_cons]

/-- Lowercasing twice is lowercasing once. -/
theorem map_toLower_idem (l : List Char) :
    (l.map Char.toLower).map Char.toLower = l.map Char.toLower := by
  rw [List.map_map]
  exact List.map_congr_left fun a _ => toLower_toLower a

/-- Every character surviving the strip of the collapsed, filtered list
is a kept character. -/
theorem keep_of_mem_strip (y : Char) (l : List Char)
    (h : y ∈ dropTrail ((collapseWs false (l.filter keepChar)).dropWhile pyIsSpace)) :
    keepChar y = true := by
  have h1 : y ∈ collapseWs false (l.filter keepChar) :=
    (List.dropWhile_sublist pyIsSpace).subset (mem_dropTrail h)
  rcases mem_collapseWs h1 with hm | rfl
  · exact List.of_mem_filter hm
  · rfl

/-- The character-level normalization is idempotent. -/
theorem normalizeChars_idem (l : List Char) :
    normalizeChars (normalizeChars l) = normalizeChars l := by
  unfold normalizeChars stripEnds
  set u := l.filter keepChar with hu
  set w := collapseWs false u with hw
  set z := dropTrail (w.dropWhile pyIsSpace) with hz
  have hfilter : (z.map Char.toLower).filter keepChar = z.map Char.toLower := by
    rw [List.filter_eq_self]
    intro a ha
    rcases List.mem_map.mp ha with ⟨y, hy, rfl⟩
    rw [keepChar_toLower]
    rw [hz] at hy
    rw [hw, hu] at hy
    exact keep_of_mem_strip y l hy
  have hcz : collapseWs false z = z := by
    rw [hz, collapseWs_dropTrail (w.dropWhile pyIsSpace) false,
      ← dropWhile_collapseWs_false w, hw, collapseWs_idem u false]
  have hdz : z.dropWhile pyIsSpace = z := by
    rw [hz, dropWhile_dropTrail, dropWhile_idem]
  have hdtz : dropTrail z = z := by
    rw [hz, dropTrail_idem]
  rw [hfilter, collapseWs_map_toLower z false, hcz, dropWhile_map_toLower, hdz,
    dropTrail_map_toLower, hdtz]
  exact map_toLower_idem z

/-- C7: normalize_name is idempotent on every string, and missing
(NaN) input yields the empty string rather than failing. -/
theorem normalize_name_idempotent (x : String) :
    normalize_name (some (normalize_name (some x))) = normalize_name (some x) ∧
    normalize_name none = "" := by
  constructor
  · show normStr (normStr x) = normStr x
    unfold normStr
    exact congrArg String.mk (normalizeChars_idem x.data)
  · rfl

/-! ### Merge-step facts (C2, C3) -/

/-- Membership in the seen-set deduplication: a row survives exactly
when its key is unseen and it is the first row of the list bearing its
key. -/
theorem mem_dedupSeen {κ α : Type} [DecidableEq κ] (key : α → κ) (r : α) :
    ∀ (seen : List κ) (l : List α),
      r ∈ dedupSeen key seen l ↔
        (key r ∉ seen ∧ l.find? (fun s => decide (key s = key r)) = some r) := by
  intro seen l
  induction l generalizing seen with
  | nil => simp [dedupSeen]
  | cons x xs ih =>
    rw [dedupSeen]
    by_cases hx : key x ∈ seen
    · rw [if_pos hx]
      by_cases hk : key x = key r
      · have hxr : key r ∈ seen := hk ▸ hx
        rw [List.find?_cons_of_pos _ (by simpa using hk)]
        constructor
        · intro hmem
          exact absurd hxr ((ih seen).mp hmem).1
        · rintro ⟨hns, _⟩
          exact absurd hxr hns
      · rw [List.find?_cons_of_neg _ (by simpa using hk)]
        exact ih seen
    · rw [if_neg hx]
      by_cases hk : key x = key r
      · have hns : key r ∉ seen := fun hs => hx (hk ▸ hs)
        rw [List.find?_cons_of_pos _ (by simpa using hk)]
        constructor
        · intro hmem
          rcases List.mem_cons.mp hmem with rfl | hmem2
          · exact ⟨hns, rfl⟩
          · exact absurd (List.mem_cons_self _ _)
              (fun hc => ((ih (key x :: seen)).mp hmem2).1 (hk ▸ hc))
        · rintro ⟨_, hsome⟩
          injection hsome with hxr
          rw [← hxr]
          exact List.mem_cons_self _ _
      · rw [List.find?_cons_of_neg _ (by simpa using hk)]
        constructor
        · intro hmem
          rcases List.mem_cons.mp hmem with rfl | hmem2
          · exact absurd rfl hk
          · obtain ⟨hns, hf⟩ := (ih (key x :: seen)).mp hmem2
            exact ⟨fun hs => hns (List.mem_cons_of_mem _ hs), hf⟩
        · rintro ⟨hns, hf⟩
          refine List.mem_cons_of_mem x ((ih (key x :: seen)).mpr ⟨?_, hf⟩)
          intro hs
          rcases List.mem_cons.mp hs with heq | hs2
          · exact hk heq.symm
          · exact hns hs2

/-- The keys of the deduplicated list are pairwise distinct and avoid
the seen set. -/
theorem nodup_keys_dedupSeen {κ α : Type} [DecidableEq κ] (key : α → κ) :
    ∀ (seen : List κ) (l : List α),
      ((dedupSeen key seen l).map key).Nodup ∧
        ∀ k ∈ (dedupSeen key seen l).map key, k ∉ seen := by
  intro seen l
  induction l generalizing seen with
  | nil => simp [dedupSeen]
  | cons x xs ih =>
    rw [dedupSeen]
    by_cases hx : key x ∈ seen
    · rw [if_pos hx]
      exact ih seen
    · rw [if_neg hx]
      obtain ⟨hnd, hnin⟩ := ih (key x :: seen)
      refine ⟨?_, ?_⟩
      · rw [List.map_cons, List.nodup_cons]
        exact ⟨fun hmem => (hnin _ hmem) (List.mem_cons_self _ _), hnd⟩
      · intro k hk
        rw [List.map_cons, List.mem_cons] at hk
        rcases hk with rfl | hk
        · exact hx
        · exact fun hs => (hnin k hk) (List.mem_cons_of_mem _ hs)

/-- The deduplication scan order of combine_results: the
high-confidence block followed by the medium-confidence block, each in
original input order, which is what the stable pandas descending
single-key sort produces from the concatenated detector outputs. -/
def merge_scan_order (consecutive_df same_district_df : List DetRow) : List MergedRow :=
  consecutive_df.map toConsResult ++ same_district_df.map toSameDistResult

/-- The concatenated detector outputs are already sorted descending by
confidence score, so the stable sort leaves them unchanged. -/
theorem sort_values_score_desc_blocks (consecutive_df same_district_df : List DetRow) :
    sort_values_score_desc
        (consecutive_df.map toConsResult ++ same_district_df.map toSameDistResult) =
      consecutive_df.map toConsResult ++ same_district_df.map toSameDistResult := by
  unfold sort_values_score_desc
  apply List.Sorted.insertionSort_eq
  show List.Pairwise scoreGE _
  rw [List.pairwise_append]
  refine ⟨?_, ?_, ?_⟩
  · apply List.pairwise_of_forall_mem_list
    intro a ha b hb
    rcases List.mem_map.mp ha with ⟨d, _, rfl⟩
    rcases List.mem_map.mp hb with ⟨e, _, rfl⟩
    exact Nat.le_refl 2
  · apply List.pairwise_of_forall_mem_list
    intro a ha b hb
    rcases List.mem_map.mp ha with ⟨d, _, rfl⟩
    rcases List.mem_map.mp hb with ⟨e, _, rfl⟩
    exact Nat.le_refl 1
  · intro a ha b hb
    rcases List.mem_map.mp ha with ⟨d, _, rfl⟩
    rcases List.mem_map.mp hb with ⟨e, _, rfl⟩
    exact Nat.le_succ 1

/-- combine_results retains exactly one row per unordered pair key:
membership is equivalent to being the first row with that key in
processing order. -/
theorem mem_combine_results_iff (consecutive_df same_district_df : List DetRow)
    (r : MergedRow) :
    r ∈ combine_results consecutive_df same_district_df ↔
      (merge_scan_order consecutive_df same_district_df).find?
        (fun s => decide (id_pair s = id_pair r)) = some r := by
  unfold combine_results merge_scan_order
  rw [sort_values_score_desc_blocks]
  rw [(List.perm_insertionSort finalGE _).mem_iff]
  unfold drop_duplicates
  rw [mem_dedupSeen]
  simp

/-- The unordered pair keys of the combine_results output are pairwise
distinct. -/
theorem combine_results_keys_nodup (consecutive_df same_district_df : List DetRow) :
    ((combine_results consecutive_df same_district_df).map id_pair).Nodup := by
  unfold combine_results sort_values_score_desc
  refine (List.Perm.nodup_iff ((List.perm_insertionSort finalGE _).map id_pair)).mpr ?_
  unfold drop_duplicates
  exact (nodup_keys_dedupSeen id_pair [] _).1

/-- C2: the merged result has at most one row per unordered pair key,
and the retained row for each key is the first one in processing order
(the high-confidence block, then the medium-confidence block, each in
input order): a higher confidence rank always beats a lower one for
the same key, and when ranks tie the earlier-processed row is the one
retained, deterministically for a fixed input ordering. -/
theorem combine_results_dedup_spec (consecutive_df same_district_df : List DetRow) :
    ((combine_results consecutive_df same_district_df).map id_pair).Nodup ∧
    ∀ r, r ∈ combine_results consecutive_df same_district_df ↔
      (merge_scan_order consecutive_df same_district_df).find?
        (fun s => decide (id_pair s = id_pair r)) = some r :=
  ⟨combine_results_keys_nodup consecutive_df same_district_df,
    fun r => mem_combine_results_iff consecutive_df same_district_df r⟩

/-- C3 (amended): the suggested mapping has at most one row per
unordered pair of ids; the claimed disjointness of canonical ids and
duplicate ids does not hold (see the counterexample). -/
theorem suggested_mappings_pairs_nodup (consecutive_df same_district_df : List DetRow) :
    ((suggested_id_mappings consecutive_df same_district_df).map fun m =>
      if m.id_canonical ≤ m.id_dup then (m.id_canonical, m.id_dup)
      else (m.id_dup, m.id_canonical)).Nodup := by
  unfold suggested_id_mappings
  rw [List.map_map]
  exact combine_results_keys_nodup consecutive_df same_district_df

/-- Counterexample to C3 as stated: with the chained detections
{1,2} and {2,3} the suggested mapping makes id 2 both a canonical id
and a duplicate id. -/
theorem suggested_mappings_chain_counterexample :
    ∃ r1 ∈ suggested_id_mappings [det_row_ab, det_row_bc] [],
      ∃ r2 ∈ suggested_id_mappings [det_row_ab, det_row_bc] [],
        r1.id_canonical = r2.id_dup := by
  decide

end MaElectionDb
